import Mathlib

/-!
Verification of the `rust_uuid` UUID engine specification.

The repository ships only the Python benchmark `benchmark_uuid.py`; the UUID
library it drives is described by the specification (RFC 4122 generation and
formatting).  The definitions below model the engine from the spec: a UUID is a
list of 16 byte values (`Nat` below 256), rendered to and parsed from the
canonical 36-character text form, with generators for versions 1, 3, 4, 5 and a
batch variant.  The benchmark harness function `benchmark_function` is embedded
directly from `src/benchmark_uuid.py`.
-/

namespace RustUuid

/-- Modelled from the spec: canonical text output uses "32 lowercase
hexadecimal digits"; this maps a nibble value to its lowercase hex digit. -/
def hexDigitChar (n : Nat) : Char :=
  if n < 10 then Char.ofNat (48 + n) else Char.ofNat (87 + n)

/-- Modelled from the spec: hex rendering of a byte sequence, two lowercase
digits per byte, most significant nibble first. -/
def hexStr : List Nat → List Char
  | [] => []
  | b :: bs => hexDigitChar (b / 16) :: hexDigitChar (b % 16) :: hexStr bs

/-- Modelled from the spec: the canonical 36-character rendering, 32 hex digits
grouped 8-4-4-4-12 with hyphen separators (bytes 0-3, 4-5, 6-7, 8-9, 10-15). -/
def formatUUID (bs : List Nat) : String :=
  String.mk (hexStr (bs.take 4) ++ '-' ::
    (hexStr ((bs.drop 4).take 2) ++ '-' ::
      (hexStr ((bs.drop 6).take 2) ++ '-' ::
        (hexStr ((bs.drop 8).take 2) ++ '-' ::
          hexStr (bs.drop 10)))))

/-- Hex digit value of a character: 0-9, a-f, A-F; `none` otherwise. -/
def hexVal? (c : Char) : Option Nat :=
  let n := c.toNat
  if 48 ≤ n ∧ n ≤ 57 then some (n - 48)
  else if 97 ≤ n ∧ n ≤ 102 then some (n - 87)
  else if 65 ≤ n ∧ n ≤ 70 then some (n - 55)
  else none

/-- Parse an even-length run of hex digits into bytes, two digits per byte. -/
def parseHexPairs : List Char → Option (List Nat)
  | [] => some []
  | c1 :: c2 :: rest =>
    match hexVal? c1, hexVal? c2, parseHexPairs rest with
    | some h1, some h2, some bs => some ((h1 * 16 + h2) :: bs)
    | _, _, _ => none
  | _ => none

/-- Split a character list on hyphens (always returns at least one group). -/
def splitDash : List Char → List (List Char)
  | [] => [[]]
  | c :: cs =>
    let r := splitDash cs
    if c = '-' then [] :: r
    else
      match r with
      | g :: gs => (c :: g) :: gs
      | [] => [[c]]

/-- Left inverse of `splitDash`: rejoin groups with hyphens. -/
def unsplitDash : List (List Char) → List Char
  | [] => []
  | [g] => g
  | g :: gs => g ++ '-' :: unsplitDash gs

/-- Modelled from the spec: construct a UUID from a 36-character canonical
string; malformed input (wrong length, non-hex characters, wrong hyphen
grouping) is the `FormatError` case, modelled as `none`. -/
def parseUUID (s : String) : Option (List Nat) :=
  match splitDash s.data with
  | [g1, g2, g3, g4, g5] =>
    if g1.length = 8 ∧ g2.length = 4 ∧ g3.length = 4 ∧ g4.length = 4 ∧
        g5.length = 12 then
      parseHexPairs (g1 ++ (g2 ++ (g3 ++ (g4 ++ g5))))
    else none
  | _ => none

/-- Modelled from the spec: overwrite the version nibble (high nibble of
byte 6) with `v`. -/
def setVersion (v : Nat) : List Nat → List Nat
  | b0 :: b1 :: b2 :: b3 :: b4 :: b5 :: b6 :: rest =>
    b0 :: b1 :: b2 :: b3 :: b4 :: b5 :: (v % 16 * 16 + b6 % 16) :: rest
  | l => l

/-- Modelled from the spec: overwrite the top two bits of byte 8 with the
RFC 4122 variant `10`. -/
def setVariant : List Nat → List Nat
  | b0 :: b1 :: b2 :: b3 :: b4 :: b5 :: b6 :: b7 :: b8 :: rest =>
    b0 :: b1 :: b2 :: b3 :: b4 :: b5 :: b6 :: b7 :: (128 + b8 % 64) :: rest
  | l => l

/-- Version accessor: high nibble of byte 6. -/
def versionOf (bs : List Nat) : Nat := bs.getD 6 0 / 16

/-- Variant accessor: top two bits of byte 8. -/
def variantOf (bs : List Nat) : Nat := bs.getD 8 0 / 64

/-- Modelled from the spec: `NAMESPACE_DNS` is the fixed UUID
`6ba7b810-9dad-11d1-80b4-00c04fd430c8`, given here as its 16 bytes. -/
def NAMESPACE_DNS : List Nat :=
  [0x6b, 0xa7, 0xb8, 0x10, 0x9d, 0xad, 0x11, 0xd1,
   0x80, 0xb4, 0x00, 0xc0, 0x4f, 0xd4, 0x30, 0xc8]

/-! ### MD5 (RFC 1321), over byte lists, words as `Nat` reduced mod 2^32 -/

/-- 32-bit left rotation. -/
def rotl32 (x n : Nat) : Nat :=
  let y := x % 2 ^ 32
  y % 2 ^ (32 - n) * 2 ^ n + y / 2 ^ (32 - n)

/-- 32-bit bitwise complement. -/
def bnot32 (x : Nat) : Nat := 2 ^ 32 - 1 - x % 2 ^ 32

/-- Little-endian bytes of a 32-bit word. -/
def le4 (x : Nat) : List Nat :=
  [x % 256, x / 256 % 256, x / 65536 % 256, x / 16777216 % 256]

/-- Big-endian bytes of a 32-bit word. -/
def be4 (x : Nat) : List Nat :=
  [x / 16777216 % 256, x / 65536 % 256, x / 256 % 256, x % 256]

/-- Little-endian 32-bit words of a byte list. -/
def toWordsLE : List Nat → List Nat
  | b0 :: b1 :: b2 :: b3 :: rest =>
    (b0 + 256 * b1 + 65536 * b2 + 16777216 * b3) :: toWordsLE rest
  | _ => []

/-- Big-endian 32-bit words of a byte list. -/
def toWordsBE : List Nat → List Nat
  | b0 :: b1 :: b2 :: b3 :: rest =>
    (((b0 * 256 + b1) * 256 + b2) * 256 + b3) :: toWordsBE rest
  | _ => []

/-- Little-endian 64-bit length field. -/
def lenBytesLE8 (n : Nat) : List Nat :=
  [n % 256, n / 2 ^ 8 % 256, n / 2 ^ 16 % 256, n / 2 ^ 24 % 256,
   n / 2 ^ 32 % 256, n / 2 ^ 40 % 256, n / 2 ^ 48 % 256, n / 2 ^ 56 % 256]

/-- Big-endian 64-bit length field. -/
def lenBytesBE8 (n : Nat) : List Nat :=
  [n / 2 ^ 56 % 256, n / 2 ^ 48 % 256, n / 2 ^ 40 % 256, n / 2 ^ 32 % 256,
   n / 2 ^ 24 % 256, n / 2 ^ 16 % 256, n / 2 ^ 8 % 256, n % 256]

/-- Zero bytes needed after the 0x80 marker to reach 56 mod 64. -/
def padZeroCount (len : Nat) : Nat := (119 - len % 64) % 64

/-- Split into 64-byte blocks, `k` the number of blocks. -/
def chunk64 : Nat → List Nat → List (List Nat)
  | 0, _ => []
  | k + 1, bs => bs.take 64 :: chunk64 k (bs.drop 64)

/-- The 64 MD5 sine-derived round constants. -/
def md5K : List Nat :=
  [0xd76aa478, 0xe8c7b756, 0x242070db, 0xc1bdceee,
   0xf57c0faf, 0x4787c62a, 0xa8304613, 0xfd469501,
   0x698098d8, 0x8b44f7af, 0xffff5bb1, 0x895cd7be,
   0x6b901122, 0xfd987193, 0xa679438e, 0x49b40821,
   0xf61e2562, 0xc040b340, 0x265e5a51, 0xe9b6c7aa,
   0xd62f105d, 0x02441453, 0xd8a1e681, 0xe7d3fbc8,
   0x21e1cde6, 0xc33707d6, 0xf4d50d87, 0x455a14ed,
   0xa9e3e905, 0xfcefa3f8, 0x676f02d9, 0x8d2a4c8a,
   0xfffa3942, 0x8771f681, 0x6d9d6122, 0xfde5380c,
   0xa4beea44, 0x4bdecfa9, 0xf6bb4b60, 0xbebfbc70,
   0x289b7ec6, 0xeaa127fa, 0xd4ef3085, 0x04881d05,
   0xd9d4d039, 0xe6db99e5, 0x1fa27cf8, 0xc4ac5665,
   0xf4292244, 0x432aff97, 0xab9423a7, 0xfc93a039,
   0x655b59c3, 0x8f0ccc92, 0xffeff47d, 0x85845dd1,
   0x6fa87e4f, 0xfe2ce6e0, 0xa3014314, 0x4e0811a1,
   0xf7537e82, 0xbd3af235, 0x2ad7d2bb, 0xeb86d391]

/-- The 64 MD5 per-round left-rotation amounts. -/
def md5S : List Nat :=
  [7, 12, 17, 22, 7, 12, 17, 22, 7, 12, 17, 22, 7, 12, 17, 22,
   5, 9, 14, 20, 5, 9, 14, 20, 5, 9, 14, 20, 5, 9, 14, 20,
   4, 11, 16, 23, 4, 11, 16, 23, 4, 11, 16, 23, 4, 11, 16, 23,
   6, 10, 15, 21, 6, 10, 15, 21, 6, 10, 15, 21, 6, 10, 15, 21]

/-- Round-dependent mixing function of MD5. -/
def md5Mix (i b c d : Nat) : Nat :=
  if i < 16 then Nat.lor (Nat.land b c) (Nat.land (bnot32 b) d)
  else if i < 32 then Nat.lor (Nat.land d b) (Nat.land (bnot32 d) c)
  else if i < 48 then Nat.xor b (Nat.xor c d)
  else Nat.xor c (Nat.lor b (bnot32 d))

/-- Round-dependent message word index of MD5. -/
def md5Idx (i : Nat) : Nat :=
  if i < 16 then i
  else if i < 32 then (5 * i + 1) % 16
  else if i < 48 then (3 * i + 5) % 16
  else 7 * i % 16

/-- One MD5 round on the state (a, b, c, d). -/
def md5Step (M : List Nat) (st : Nat × Nat × Nat × Nat) (i : Nat) :
    Nat × Nat × Nat × Nat :=
  let a := st.1
  let b := st.2.1
  let c := st.2.2.1
  let d := st.2.2.2
  let f := (md5Mix i b c d + a + md5K.getD i 0 + M.getD (md5Idx i) 0) % 2 ^ 32
  (d, (b + rotl32 f (md5S.getD i 0)) % 2 ^ 32, b, c)

/-- MD5 compression of one 64-byte block. -/
def md5Block (st : Nat × Nat × Nat × Nat) (block : List Nat) :
    Nat × Nat × Nat × Nat :=
  let M := toWordsLE block
  let r := (List.range 64).foldl (md5Step M) st
  ((st.1 + r.1) % 2 ^ 32, (st.2.1 + r.2.1) % 2 ^ 32,
   (st.2.2.1 + r.2.2.1) % 2 ^ 32, (st.2.2.2 + r.2.2.2) % 2 ^ 32)

/-- MD5 padding: 0x80 marker, zeros to 56 mod 64, little-endian bit length. -/
def md5Pad (msg : List Nat) : List Nat :=
  msg ++ 128 :: (List.replicate (padZeroCount msg.length) 0 ++
    lenBytesLE8 (msg.length * 8 % 2 ^ 64))

/-- MD5 digest (16 bytes) of a byte list. -/
def md5 (msg : List Nat) : List Nat :=
  let p := md5Pad msg
  let h := (chunk64 (p.length / 64) p).foldl md5Block
    (0x67452301, 0xefcdab89, 0x98badcfe, 0x10325476)
  le4 h.1 ++ (le4 h.2.1 ++ (le4 h.2.2.1 ++ le4 h.2.2.2))

/-! ### SHA-1 (RFC 3174) -/

/-- Extend the 16 message words of a SHA-1 block to 80. -/
def sha1Expand (w : List Nat) : List Nat :=
  (List.range 64).foldl (fun acc _ =>
    let i := acc.length
    acc ++ [rotl32 (Nat.xor (acc.getD (i - 3) 0) (Nat.xor (acc.getD (i - 8) 0)
      (Nat.xor (acc.getD (i - 14) 0) (acc.getD (i - 16) 0)))) 1]) w

/-- Round-dependent mixing function of SHA-1. -/
def sha1F (i b c d : Nat) : Nat :=
  if i < 20 then Nat.lor (Nat.land b c) (Nat.land (bnot32 b) d)
  else if i < 40 then Nat.xor b (Nat.xor c d)
  else if i < 60 then Nat.lor (Nat.lor (Nat.land b c) (Nat.land b d)) (Nat.land c d)
  else Nat.xor b (Nat.xor c d)

/-- Round-dependent additive constant of SHA-1. -/
def sha1K (i : Nat) : Nat :=
  if i < 20 then 0x5a827999
  else if i < 40 then 0x6ed9eba1
  else if i < 60 then 0x8f1bbcdc
  else 0xca62c1d6

/-- One SHA-1 round on the state (a, b, c, d, e). -/
def sha1Step (w : List Nat) (st : Nat × Nat × Nat × Nat × Nat) (i : Nat) :
    Nat × Nat × Nat × Nat × Nat :=
  let a := st.1
  let b := st.2.1
  let c := st.2.2.1
  let d := st.2.2.2.1
  let e := st.2.2.2.2
  ((rotl32 a 5 + sha1F i b c d + e + sha1K i + w.getD i 0) % 2 ^ 32,
   a, rotl32 b 30, c, d)

/-- SHA-1 compression of one 64-byte block. -/
def sha1Block (st : Nat × Nat × Nat × Nat × Nat) (block : List Nat) :
    Nat × Nat × Nat × Nat × Nat :=
  let w := sha1Expand (toWordsBE block)
  let r := (List.range 80).foldl (sha1Step w) st
  ((st.1 + r.1) % 2 ^ 32, (st.2.1 + r.2.1) % 2 ^ 32,
   (st.2.2.1 + r.2.2.1) % 2 ^ 32, (st.2.2.2.1 + r.2.2.2.1) % 2 ^ 32,
   (st.2.2.2.2 + r.2.2.2.2) % 2 ^ 32)

/-- SHA-1 padding: 0x80 marker, zeros to 56 mod 64, big-endian bit length. -/
def sha1Pad (msg : List Nat) : List Nat :=
  msg ++ 128 :: (List.replicate (padZeroCount msg.length) 0 ++
    lenBytesBE8 (msg.length * 8 % 2 ^ 64))

/-- SHA-1 digest (20 bytes) of a byte list. -/
def sha1 (msg : List Nat) : List Nat :=
  let p := sha1Pad msg
  let h := (chunk64 (p.length / 64) p).foldl sha1Block
    (0x67452301, 0xefcdab89, 0x98badcfe, 0x10325476, 0xc3d2e1f0)
  be4 h.1 ++ (be4 h.2.1 ++ (be4 h.2.2.1 ++ (be4 h.2.2.2.1 ++ be4 h.2.2.2.2)))

/-! ### Generators -/

/-- Modelled from the spec: version-3 generation concatenates the namespace's
16 raw bytes with the name bytes, takes the first 16 bytes of the MD5 digest,
and stamps version 3 and the RFC 4122 variant. -/
def uuid3 (ns name : List Nat) : List Nat :=
  setVariant (setVersion 3 ((md5 (ns ++ name)).take 16))

/-- Modelled from the spec: version-5 generation, as version 3 but with the
SHA-1 digest truncated to 16 bytes, stamped with version 5. -/
def uuid5 (ns name : List Nat) : List Nat :=
  setVariant (setVersion 5 ((sha1 (ns ++ name)).take 16))

/-- The bytes of the name "example.com" (ASCII / UTF-8). -/
def exampleCom : List Nat :=
  [101, 120, 97, 109, 112, 108, 101, 46, 99, 111, 109]

/-- Modelled from the spec: the version-1 byte layout — 60-bit timestamp split
into time-low (bytes 0-3), time-mid (bytes 4-5), time-hi (bytes 6-7), the
14-bit clock sequence in bytes 8-9, the 48-bit node in bytes 10-15, all
big-endian, with version 1 and the RFC 4122 variant stamped. -/
def uuid1Bytes (ts cs node : Nat) : List Nat :=
  setVariant (setVersion 1
    [ts / 2 ^ 24 % 256, ts / 2 ^ 16 % 256, ts / 2 ^ 8 % 256, ts % 256,
     ts / 2 ^ 40 % 256, ts / 2 ^ 32 % 256,
     ts / 2 ^ 56 % 256, ts / 2 ^ 48 % 256,
     cs / 256 % 256, cs % 256,
     node / 2 ^ 40 % 256, node / 2 ^ 32 % 256, node / 2 ^ 24 % 256,
     node / 2 ^ 16 % 256, node / 2 ^ 8 % 256, node % 256])

/-- Process-wide state of the version-1 generator: last timestamp seen,
14-bit clock sequence, 48-bit node identifier. -/
structure V1State where
  last : Nat
  cs : Nat
  node : Nat

/-- Modelled from the spec: one `uuid1()` call at system-clock reading `ts`.
If the clock reads a value identical to or regressed from the previous call,
the clock sequence is bumped (incremented mod 2^14) so the result still
differs from the previous one. -/
def uuid1Step (s : V1State) (ts : Nat) : List Nat × V1State :=
  let cs1 := if ts ≤ s.last then (s.cs + 1) % 2 ^ 14 else s.cs
  (uuid1Bytes ts cs1 s.node, ⟨ts, cs1, s.node⟩)

/-- A stream of bytes drawn from the random source `rnd`, starting at
offset `off`. -/
def randBytes (rnd : Nat → Nat) : Nat → Nat → List Nat
  | _, 0 => []
  | off, n + 1 => rnd off % 256 :: randBytes rnd (off + 1) n

/-- Modelled from the spec: stamp version 4 and the RFC 4122 variant onto
16 random bytes. -/
def v4stamp (bs : List Nat) : List Nat := setVariant (setVersion 4 bs)

/-- Modelled from the spec: `uuid4()` fills all 128 bits from the random
source, then overwrites the version nibble and variant bits. -/
def uuid4 (rnd : Nat → Nat) (off : Nat) : List Nat :=
  v4stamp (randBytes rnd off 16)

/-- Cut a bulk random buffer into successive 16-byte UUIDs. -/
def batchGo : List Nat → Nat → List (List Nat)
  | _, 0 => []
  | bs, n + 1 => v4stamp (bs.take 16) :: batchGo (bs.drop 16) n

/-- Modelled from the spec: `uuid4_batch(n)` pulls `16 * n` random bytes in
bulk and stamps each 16-byte chunk as a version-4 UUID. -/
def uuid4_batch (rnd : Nat → Nat) (n : Nat) : List (List Nat) :=
  batchGo (randBytes rnd 0 (16 * n)) n

/-- Calling `uuid4()` repeatedly: `n` calls, each consuming the next 16 bytes
of the shared random source, results collected in generation order. -/
def uuid4Calls (rnd : Nat → Nat) : Nat → Nat → List (List Nat)
  | _, 0 => []
  | off, n + 1 => uuid4 rnd off :: uuid4Calls rnd (off + 16) n

/-- The process environment a generator call may read: the random source and
the system clock. -/
structure GenEnv where
  rnd : Nat → Nat
  clock : Nat → Nat

/-- Modelled from the spec: a `uuid3` call as the caller sees it — the
name-based generator is a pure function of (namespace, name), reading no
internal state and no clock, and leaving the environment untouched. -/
def uuid3Call (e : GenEnv) (ns name : List Nat) : List Nat × GenEnv :=
  (uuid3 ns name, e)

/-- Modelled from the spec: a `uuid5` call, likewise pure. -/
def uuid5Call (e : GenEnv) (ns name : List Nat) : List Nat × GenEnv :=
  (uuid5 ns name, e)

/-! ### The benchmark harness (`benchmark_function` in `benchmark_uuid.py`)

The benchmarked callable is modelled as a state transformer `func : σ → σ`,
so that "`func` is invoked `k` times" is expressed as the final state being
`applyN func k` of the initial one.  The wall-clock durations that
`timeit.timeit` measures are an oracle `tt : Nat → ℚ` giving each trial's
duration. -/

/-- Apply `func` to the state `n` times in sequence. -/
def applyN {σ : Type} (func : σ → σ) : Nat → σ → σ
  | 0, s => s
  | n + 1, s => applyN func n (func s)

/-- Embedding of `benchmark_function(func, name, iterations, warmup)` from
`src/benchmark_uuid.py`: a warmup loop of `warmup` calls, then 5 timed trials
of `iterations` calls each (`timeit.timeit(func, number=iterations)`), the
trial durations collected in a list; returns
`(avg_time, iterations / avg_time)` with `avg_time` the mean of the 5 trial
durations, paired with the final state of the benchmarked callable.  The
printing and the unused standard deviation are omitted. -/
def benchmark_function {σ : Type} (func : σ → σ) (iterations warmup : Nat)
    (tt : Nat → ℚ) (s0 : σ) : (ℚ × ℚ) × σ :=
  let s1 := applyN func warmup s0
  let run := (List.range 5).foldl
    (fun (acc : List ℚ × σ) trial =>
      (acc.1 ++ [tt trial], applyN func iterations acc.2))
    ([], s1)
  let avg : ℚ := run.1.sum / run.1.length
  ((avg, (iterations : ℚ) / avg), run.2)

/-- A lowercase hexadecimal digit: `0`-`9` or `a`-`f`. -/
def lowerHexChar (c : Char) : Bool :=
  (48 ≤ c.toNat && c.toNat ≤ 57) || (97 ≤ c.toNat && c.toNat ≤ 102)

/-- A well-formed canonical UUID string: five runs of hex digits of lengths
8, 4, 4, 4, 12 joined by hyphens (so 36 characters in total).  A string is
malformed — wrong length, a non-hex character, or wrong hyphen grouping —
exactly when no such decomposition exists. -/
def wellFormedUUIDString (s : String) : Prop :=
  ∃ g1 g2 g3 g4 g5 : List Char,
    s.data = g1 ++ '-' :: (g2 ++ '-' :: (g3 ++ '-' :: (g4 ++ '-' :: g5))) ∧
    g1.length = 8 ∧ g2.length = 4 ∧ g3.length = 4 ∧ g4.length = 4 ∧
    g5.length = 12 ∧
    ∀ c ∈ g1 ++ (g2 ++ (g3 ++ (g4 ++ g5))), (hexVal? c).isSome

/-! ### Helper lemmas -/

theorem hexStr_append (xs ys : List Nat) :
    hexStr (xs ++ ys) = hexStr xs ++ hexStr ys := by
  induction xs with
  | nil => rfl
  | cons b bs ih => simp [hexStr, ih]

theorem hexStr_length (xs : List Nat) : (hexStr xs).length = 2 * xs.length := by
  induction xs with
  | nil => rfl
  | cons b bs ih => simp [hexStr, ih]; omega

theorem hexVal_hexDigitChar : ∀ n, n < 16 → hexVal? (hexDigitChar n) = some n := by
  decide

theorem hexDigitChar_ne_dash : ∀ n, n < 16 → hexDigitChar n ≠ '-' := by
  decide

theorem lowerHexChar_hexDigitChar : ∀ n, n < 16 → lowerHexChar (hexDigitChar n) = true := by
  decide

theorem dash_not_mem_hexStr (xs : List Nat) (hb : ∀ b ∈ xs, b < 256) :
    '-' ∉ hexStr xs := by
  induction xs with
  | nil => simp [hexStr]
  | cons b bs ih =>
    have hblt : b < 256 := hb b (by simp)
    have h1 : b / 16 < 16 := by omega
    have h2 : b % 16 < 16 := by omega
    simp only [hexStr, List.mem_cons, not_or]
    refine ⟨?_, ?_, ih fun x hx => hb x (by simp [hx])⟩
    · exact fun h => hexDigitChar_ne_dash _ h1 h.symm
    · exact fun h => hexDigitChar_ne_dash _ h2 h.symm

theorem lowerHex_mem_hexStr (xs : List Nat) (hb : ∀ b ∈ xs, b < 256) :
    ∀ c ∈ hexStr xs, lowerHexChar c = true := by
  induction xs with
  | nil => simp [hexStr]
  | cons b bs ih =>
    have hblt : b < 256 := hb b (by simp)
    intro c hc
    simp only [hexStr, List.mem_cons] at hc
    rcases hc with rfl | rfl | hc
    · exact lowerHexChar_hexDigitChar _ (by omega)
    · exact lowerHexChar_hexDigitChar _ (by omega)
    · exact ih (fun x hx => hb x (by simp [hx])) c hc

theorem parseHexPairs_hexStr (xs : List Nat) (hb : ∀ b ∈ xs, b < 256) :
    parseHexPairs (hexStr xs) = some xs := by
  induction xs with
  | nil => rfl
  | cons b bs ih =>
    have hblt : b < 256 := hb b (by simp)
    have ih2 := ih fun x hx => hb x (by simp [hx])
    simp only [hexStr, parseHexPairs,
      hexVal_hexDigitChar (b / 16) (by omega),
      hexVal_hexDigitChar (b % 16) (by omega), ih2]
    congr 1
    simp
    omega

theorem parseHexPairs_chars : ∀ (cs : List Char) (bs : List Nat),
    parseHexPairs cs = some bs → ∀ c ∈ cs, (hexVal? c).isSome
  | [], _, _, c, hc => by simp at hc
  | [c1], bs, h, c, hc => by simp [parseHexPairs] at h
  | c1 :: c2 :: rest, bs, h, c, hc => by
    cases hv1 : hexVal? c1 with
    | none => rw [parseHexPairs, hv1] at h; simp at h
    | some h1 =>
      cases hv2 : hexVal? c2 with
      | none => rw [parseHexPairs, hv1, hv2] at h; simp at h
      | some h2 =>
        cases hp : parseHexPairs rest with
        | none => rw [parseHexPairs, hv1, hv2, hp] at h; simp at h
        | some tl =>
          simp only [List.mem_cons] at hc
          rcases hc with rfl | rfl | hc
          · simp [hv1]
          · simp [hv2]
          · exact parseHexPairs_chars rest tl hp c hc

theorem splitDash_group (g : List Char) (hg : '-' ∉ g) (rest : List Char) :
    splitDash (g ++ '-' :: rest) = g :: splitDash rest := by
  induction g with
  | nil => simp [splitDash]
  | cons c cs ih =>
    have hc : c ≠ '-' := fun h => hg (by simp [h])
    have ih2 := ih fun h => hg (by simp [h])
    simp only [List.cons_append, splitDash, if_neg hc, List.append_eq, ih2]

theorem splitDash_no_dash (g : List Char) (hg : '-' ∉ g) :
    splitDash g = [g] := by
  induction g with
  | nil => rfl
  | cons c cs ih =>
    have hc : c ≠ '-' := fun h => hg (by simp [h])
    have ih2 := ih fun h => hg (by simp [h])
    simp only [splitDash, if_neg hc, ih2]

theorem splitDash_ne_nil (cs : List Char) : splitDash cs ≠ [] := by
  cases cs with
  | nil => simp [splitDash]
  | cons c cs =>
    simp only [splitDash]
    split
    · simp
    · split
      · simp
      · simp

theorem unsplitDash_splitDash (cs : List Char) :
    unsplitDash (splitDash cs) = cs := by
  induction cs with
  | nil => rfl
  | cons c cs ih =>
    by_cases hc : c = '-'
    · subst hc
      simp only [splitDash, if_pos rfl]
      cases hg : splitDash cs with
      | nil => exact absurd hg (splitDash_ne_nil cs)
      | cons g gs =>
        rw [hg] at ih
        simp only [unsplitDash, List.nil_append]
        rw [ih]
    · simp only [splitDash, if_neg hc]
      cases hg : splitDash cs with
      | nil => exact absurd hg (splitDash_ne_nil cs)
      | cons g gs =>
        rw [hg] at ih
        cases gs with
        | nil => simp only [unsplitDash] at ih ⊢; rw [ih]
        | cons g2 gs2 =>
          simp only [unsplitDash, List.cons_append] at ih ⊢
          rw [ih]

theorem splitDash_mem_no_dash (cs : List Char) :
    ∀ g ∈ splitDash cs, '-' ∉ g := by
  induction cs with
  | nil => intro g hg; simp [splitDash] at hg; simp [hg]
  | cons c cs ih =>
    intro g hg
    by_cases hc : c = '-'
    · subst hc
      simp only [splitDash, reduceIte, List.mem_cons] at hg
      rcases hg with hg | hg
      · subst hg; simp
      · exact ih g hg
    · simp only [splitDash, if_neg hc] at hg
      cases hsplit : splitDash cs with
      | nil => exact absurd hsplit (splitDash_ne_nil cs)
      | cons g0 gs =>
        rw [hsplit] at hg
        simp only [List.mem_cons] at hg
        rcases hg with rfl | hg
        · intro hmem
          simp only [List.mem_cons] at hmem
          rcases hmem with h | h
          · exact hc h.symm
          · exact ih g0 (by rw [hsplit]; simp) h
        · exact ih g (by rw [hsplit]; simp [hg])

/-- Any list of length at least 9 splits into nine heads and a tail. -/
theorem exists_cons9 (bs : List Nat) (h : 9 ≤ bs.length) :
    ∃ b0 b1 b2 b3 b4 b5 b6 b7 b8 rest,
      bs = b0 :: b1 :: b2 :: b3 :: b4 :: b5 :: b6 :: b7 :: b8 :: rest := by
  rcases bs with _ | ⟨b0, _ | ⟨b1, _ | ⟨b2, _ | ⟨b3, _ | ⟨b4, _ | ⟨b5,
    _ | ⟨b6, _ | ⟨b7, _ | ⟨b8, rest⟩⟩⟩⟩⟩⟩⟩⟩⟩ <;>
      first
        | exact ⟨_, _, _, _, _, _, _, _, _, _, rfl⟩
        | (simp only [List.length] at h; omega)

/-- Stamping the version and variant onto any byte list of length at least 9
yields the requested version nibble and the RFC 4122 variant bits. -/
theorem setVV_facts (v : Nat) (bs : List Nat) (h : 9 ≤ bs.length) :
    versionOf (setVariant (setVersion v bs)) = v % 16 ∧
    variantOf (setVariant (setVersion v bs)) = 2 := by
  obtain ⟨b0, b1, b2, b3, b4, b5, b6, b7, b8, rest, rfl⟩ := exists_cons9 bs h
  simp only [setVersion, setVariant, versionOf, variantOf,
    List.getD_cons_succ, List.getD_cons_zero]
  omega

theorem md5_length (msg : List Nat) : (md5 msg).length = 16 := by
  simp [md5, le4]

theorem sha1_length (msg : List Nat) : (sha1 msg).length = 20 := by
  simp [sha1, be4]

theorem randBytes_length (rnd : Nat → Nat) :
    ∀ off n, (randBytes rnd off n).length = n := by
  intro off n
  induction n generalizing off with
  | zero => rfl
  | succ n ih => simp [randBytes, ih]

theorem randBytes_lt (rnd : Nat → Nat) :
    ∀ off n, ∀ b ∈ randBytes rnd off n, b < 256 := by
  intro off n
  induction n generalizing off with
  | zero => simp [randBytes]
  | succ n ih =>
    intro b hb
    simp only [randBytes, List.mem_cons] at hb
    rcases hb with rfl | hb
    · exact Nat.mod_lt _ (by norm_num)
    · exact ih (off + 1) b hb

theorem randBytes_take (rnd : Nat → Nat) :
    ∀ k n off, k ≤ n → (randBytes rnd off n).take k = randBytes rnd off k := by
  intro k
  induction k with
  | zero => intro n off h; simp [randBytes]
  | succ k ih =>
    intro n off h
    cases n with
    | zero => omega
    | succ n => simp [randBytes, List.take_succ_cons, ih n (off + 1) (by omega)]

theorem randBytes_drop (rnd : Nat → Nat) :
    ∀ k n off, (randBytes rnd off n).drop k = randBytes rnd (off + k) (n - k) := by
  intro k
  induction k with
  | zero => intro n off; simp
  | succ k ih =>
    intro n off
    cases n with
    | zero => simp [randBytes]
    | succ n =>
      simp only [randBytes, List.drop_succ_cons, Nat.succ_sub_succ]
      rw [ih n (off + 1)]
      congr 1
      omega

/-- The bulk batch over a shared random stream equals `n` successive
`uuid4()` calls, each consuming the next 16 bytes. -/
theorem batchGo_randBytes (rnd : Nat → Nat) :
    ∀ n off, batchGo (randBytes rnd off (16 * n)) n = uuid4Calls rnd off n := by
  intro n
  induction n with
  | zero => intro off; rfl
  | succ n ih =>
    intro off
    have h16 : 16 * (n + 1) = 16 + 16 * n := by ring
    rw [h16]
    simp only [batchGo, uuid4Calls, uuid4]
    rw [randBytes_take rnd 16 (16 + 16 * n) off (by omega),
      randBytes_drop rnd 16 (16 + 16 * n) off]
    have hsub : 16 + 16 * n - 16 = 16 * n := by omega
    rw [hsub, ih (off + 16)]

theorem mem_uuid4Calls (rnd : Nat → Nat) :
    ∀ n off u, u ∈ uuid4Calls rnd off n → ∃ o, u = uuid4 rnd o := by
  intro n
  induction n with
  | zero => intro off u hu; simp [uuid4Calls] at hu
  | succ n ih =>
    intro off u hu
    simp only [uuid4Calls, List.mem_cons] at hu
    rcases hu with rfl | hu
    · exact ⟨off, rfl⟩
    · exact ih (off + 16) u hu

theorem uuid4Calls_length (rnd : Nat → Nat) :
    ∀ n off, (uuid4Calls rnd off n).length = n := by
  intro n
  induction n with
  | zero => intro off; rfl
  | succ n ih => intro off; simp [uuid4Calls, ih]

/-- Version and variant facts for a single `uuid4` result. -/
theorem uuid4_vv (rnd : Nat → Nat) (off : Nat) :
    versionOf (uuid4 rnd off) = 4 ∧ variantOf (uuid4 rnd off) = 2 := by
  have h := setVV_facts 4 (randBytes rnd off 16)
    (by rw [randBytes_length]; omega)
  simpa [uuid4, v4stamp] using h

theorem applyN_add {σ : Type} (func : σ → σ) :
    ∀ m n s, applyN func (m + n) s = applyN func n (applyN func m s) := by
  intro m
  induction m with
  | zero => intro n s; simp [applyN]
  | succ m ih =>
    intro n s
    have : m + 1 + n = (m + n) + 1 := by omega
    rw [this]
    simp only [applyN]
    exact ih n (func s)

/-- A list of length 16 is an explicit 16-element list. -/
theorem exists_list16 (bs : List Nat) (h : bs.length = 16) :
    ∃ b0 b1 b2 b3 b4 b5 b6 b7 b8 b9 b10 b11 b12 b13 b14 b15,
      bs = [b0, b1, b2, b3, b4, b5, b6, b7, b8, b9, b10, b11, b12, b13,
        b14, b15] := by
  rcases bs with _ | ⟨b0, _ | ⟨b1, _ | ⟨b2, _ | ⟨b3, _ | ⟨b4, _ | ⟨b5,
    _ | ⟨b6, _ | ⟨b7, _ | ⟨b8, _ | ⟨b9, _ | ⟨b10, _ | ⟨b11, _ | ⟨b12,
    _ | ⟨b13, _ | ⟨b14, _ | ⟨b15, _ | ⟨b16, rest⟩⟩⟩⟩⟩⟩⟩⟩⟩⟩⟩⟩⟩⟩⟩⟩⟩ <;>
      first
        | exact ⟨_, _, _, _, _, _, _, _, _, _, _, _, _, _, _, _, rfl⟩
        | (simp only [List.length_cons, List.length_nil] at h; omega)

/-! ### Claim theorems -/

set_option maxRecDepth 1000000

/-- C1: `uuid3(NAMESPACE_DNS, "example.com")` renders to the RFC 4122
reference value `9073926b-929f-31c2-abc9-fad77ae3e8eb`, and
`uuid5(NAMESPACE_DNS, "example.com")` to
`cfbff0d1-9375-5685-968c-48ce8b15ae17`. -/
theorem uuid3_uuid5_reference_values :
    formatUUID (uuid3 NAMESPACE_DNS exampleCom) =
      "9073926b-929f-31c2-abc9-fad77ae3e8eb" ∧
    formatUUID (uuid5 NAMESPACE_DNS exampleCom) =
      "cfbff0d1-9375-5685-968c-48ce8b15ae17" :=
  ⟨by decide, by decide⟩

/-- C2: `uuid3` and `uuid5` are deterministic pure functions of
(namespace, name): the result does not depend on the process environment
(random source or clock), a repeated call returns the identical UUID, and
the call leaves the environment untouched. -/
theorem uuid3_uuid5_deterministic (e1 e2 : GenEnv) (ns name : List Nat) :
    (uuid3Call e1 ns name).1 = (uuid3Call e2 ns name).1 ∧
    (uuid3Call (uuid3Call e1 ns name).2 ns name).1 = (uuid3Call e1 ns name).1 ∧
    (uuid3Call e1 ns name).2 = e1 ∧
    (uuid5Call e1 ns name).1 = (uuid5Call e2 ns name).1 ∧
    (uuid5Call (uuid5Call e1 ns name).2 ns name).1 = (uuid5Call e1 ns name).1 ∧
    (uuid5Call e1 ns name).2 = e1 :=
  ⟨rfl, rfl, rfl, rfl, rfl, rfl⟩

/-- C3: every generated UUID carries the generator's version in the high
nibble of byte 6 (1, 3, 4, or 5) and the RFC 4122 variant `10` in the top
two bits of byte 8 — for `uuid1`, `uuid3`, `uuid4`, every element of
`uuid4_batch`, and `uuid5`. -/
theorem uuid_version_variant (ts cs node : Nat) (rnd : Nat → Nat) (off : Nat)
    (ns name : List Nat) (n : Nat) (u : List Nat) :
    (versionOf (uuid1Bytes ts cs node) = 1 ∧
      variantOf (uuid1Bytes ts cs node) = 2) ∧
    (versionOf (uuid3 ns name) = 3 ∧ variantOf (uuid3 ns name) = 2) ∧
    (versionOf (uuid4 rnd off) = 4 ∧ variantOf (uuid4 rnd off) = 2) ∧
    (u ∈ uuid4_batch rnd n → versionOf u = 4 ∧ variantOf u = 2) ∧
    (versionOf (uuid5 ns name) = 5 ∧ variantOf (uuid5 ns name) = 2) := by
  refine ⟨?_, ?_, uuid4_vv rnd off, ?_, ?_⟩
  · have h := setVV_facts 1
      [ts / 2 ^ 24 % 256, ts / 2 ^ 16 % 256, ts / 2 ^ 8 % 256, ts % 256,
       ts / 2 ^ 40 % 256, ts / 2 ^ 32 % 256,
       ts / 2 ^ 56 % 256, ts / 2 ^ 48 % 256,
       cs / 256 % 256, cs % 256,
       node / 2 ^ 40 % 256, node / 2 ^ 32 % 256, node / 2 ^ 24 % 256,
       node / 2 ^ 16 % 256, node / 2 ^ 8 % 256, node % 256] (by simp)
    simpa [uuid1Bytes] using h
  · have h := setVV_facts 3 ((md5 (ns ++ name)).take 16)
      (by rw [List.length_take, md5_length]; omega)
    simpa [uuid3] using h
  · intro hu
    have he : uuid4_batch rnd n = uuid4Calls rnd 0 n := batchGo_randBytes rnd n 0
    rw [he] at hu
    obtain ⟨o, rfl⟩ := mem_uuid4Calls rnd n 0 u hu
    exact uuid4_vv rnd o
  · have h := setVV_facts 5 ((sha1 (ns ++ name)).take 16)
      (by rw [List.length_take, sha1_length]; omega)
    simpa [uuid5] using h

/-- Witness for C3 at concrete inputs, with the batch-membership hypothesis
discharged on a one-element batch. -/
theorem uuid_version_variant_witness :
    uuid4 (fun _ => 0) 0 ∈ uuid4_batch (fun _ => 0) 1 ∧
    (versionOf (uuid4 (fun _ => 0) 0) = 4 ∧
      variantOf (uuid4 (fun _ => 0) 0) = 2) :=
  ⟨by decide,
    (uuid_version_variant 0 0 0 (fun _ => 0) 0 [] [] 1
      (uuid4 (fun _ => 0) 0)).2.2.2.1 (by decide)⟩

/-- C5: `uuid4_batch(n)` returns exactly `n` UUIDs, each satisfying the
version-4 invariants, and `uuid4_batch(0)` returns the empty sequence. -/
theorem uuid4_batch_count_valid (rnd : Nat → Nat) (n : Nat) :
    (uuid4_batch rnd n).length = n ∧
    (∀ u, u ∈ uuid4_batch rnd n → versionOf u = 4 ∧ variantOf u = 2) ∧
    uuid4_batch rnd 0 = [] := by
  have he : uuid4_batch rnd n = uuid4Calls rnd 0 n := batchGo_randBytes rnd n 0
  refine ⟨?_, ?_, rfl⟩
  · rw [he, uuid4Calls_length]
  · intro u hu
    rw [he] at hu
    obtain ⟨o, rfl⟩ := mem_uuid4Calls rnd n 0 u hu
    exact uuid4_vv rnd o

/-- Witness for C5 at a concrete one-element batch. -/
theorem uuid4_batch_count_valid_witness :
    (uuid4_batch (fun _ => 1) 1).length = 1 ∧
    uuid4 (fun _ => 1) 0 ∈ uuid4_batch (fun _ => 1) 1 ∧
    (versionOf (uuid4 (fun _ => 1) 0) = 4 ∧
      variantOf (uuid4 (fun _ => 1) 0) = 2) :=
  ⟨(uuid4_batch_count_valid (fun _ => 1) 1).1, by decide,
    (uuid4_batch_count_valid (fun _ => 1) 1).2.1 _ (by decide)⟩

/-- C6: `uuid4_batch(n)` is semantically equivalent to calling `uuid4()`
`n` times on the shared random source and collecting the results in
generation order. -/
theorem uuid4_batch_equiv_calls (rnd : Nat → Nat) (n : Nat) :
    uuid4_batch rnd n = uuid4Calls rnd 0 n :=
  batchGo_randBytes rnd n 0

/-- C4: parsing the canonical rendering of any UUID returns exactly that
UUID: `parse(format(u)) = u`. -/
theorem parse_format_roundtrip (bs : List Nat) (h16 : bs.length = 16)
    (hb : ∀ b ∈ bs, b < 256) : parseUUID (formatUUID bs) = some bs := by
  obtain ⟨b0, b1, b2, b3, b4, b5, b6, b7, b8, b9, b10, b11, b12, b13, b14,
    b15, rfl⟩ := exists_list16 bs h16
  have hlt : ∀ b ∈ [b0, b1, b2, b3, b4, b5, b6, b7, b8, b9, b10, b11, b12,
      b13, b14, b15], b < 256 := hb
  simp only [List.mem_cons, forall_eq_or_imp] at hlt
  obtain ⟨l0, l1, l2, l3, l4, l5, l6, l7, l8, l9, l10, l11, l12, l13, l14,
    l15, -⟩ := hlt
  have hnd1 : '-' ∉ hexStr [b0, b1, b2, b3] := by
    refine dash_not_mem_hexStr _ ?_
    intro b hm
    simp only [List.mem_cons, List.not_mem_nil, or_false] at hm
    rcases hm with rfl | rfl | rfl | rfl <;> omega
  have hnd2 : '-' ∉ hexStr [b4, b5] := by
    refine dash_not_mem_hexStr _ ?_
    intro b hm
    simp only [List.mem_cons, List.not_mem_nil, or_false] at hm
    rcases hm with rfl | rfl <;> omega
  have hnd3 : '-' ∉ hexStr [b6, b7] := by
    refine dash_not_mem_hexStr _ ?_
    intro b hm
    simp only [List.mem_cons, List.not_mem_nil, or_false] at hm
    rcases hm with rfl | rfl <;> omega
  have hnd4 : '-' ∉ hexStr [b8, b9] := by
    refine dash_not_mem_hexStr _ ?_
    intro b hm
    simp only [List.mem_cons, List.not_mem_nil, or_false] at hm
    rcases hm with rfl | rfl <;> omega
  have hnd5 : '-' ∉ hexStr [b10, b11, b12, b13, b14, b15] := by
    refine dash_not_mem_hexStr _ ?_
    intro b hm
    simp only [List.mem_cons, List.not_mem_nil, or_false] at hm
    rcases hm with rfl | rfl | rfl | rfl | rfl | rfl <;> omega
  have hsplit : splitDash (formatUUID [b0, b1, b2, b3, b4, b5, b6, b7, b8,
      b9, b10, b11, b12, b13, b14, b15]).data =
      [hexStr [b0, b1, b2, b3], hexStr [b4, b5], hexStr [b6, b7],
       hexStr [b8, b9], hexStr [b10, b11, b12, b13, b14, b15]] := by
    show splitDash (hexStr [b0, b1, b2, b3] ++ '-' ::
      (hexStr [b4, b5] ++ '-' :: (hexStr [b6, b7] ++ '-' ::
        (hexStr [b8, b9] ++ '-' ::
          hexStr [b10, b11, b12, b13, b14, b15])))) = _
    rw [splitDash_group _ hnd1, splitDash_group _ hnd2,
      splitDash_group _ hnd3, splitDash_group _ hnd4,
      splitDash_no_dash _ hnd5]
  have hpairs : parseHexPairs (hexStr [b0, b1, b2, b3] ++ (hexStr [b4, b5] ++
      (hexStr [b6, b7] ++ (hexStr [b8, b9] ++
        hexStr [b10, b11, b12, b13, b14, b15])))) =
      some [b0, b1, b2, b3, b4, b5, b6, b7, b8, b9, b10, b11, b12, b13,
        b14, b15] := by
    rw [← hexStr_append, ← hexStr_append, ← hexStr_append, ← hexStr_append]
    exact parseHexPairs_hexStr _ hb
  unfold parseUUID
  rw [hsplit]
  simp only [hexStr, List.length_cons, List.length_nil]
  rw [if_pos (by simp)]
  exact hpairs

/-- Witness for C4 at the concrete UUID `NAMESPACE_DNS`. -/
theorem parse_format_roundtrip_witness :
    NAMESPACE_DNS.length = 16 ∧ (∀ b ∈ NAMESPACE_DNS, b < 256) ∧
    parseUUID (formatUUID NAMESPACE_DNS) = some NAMESPACE_DNS :=
  ⟨by decide, by decide,
    parse_format_roundtrip NAMESPACE_DNS (by decide) (by decide)⟩

/-- The version-1 layout is injective in timestamp and clock sequence: equal
byte lists force equal 60-bit timestamps and equal 14-bit clock sequences. -/
theorem uuid1Bytes_inj (ts1 ts2 cs1 cs2 n1 n2 : Nat)
    (ht1 : ts1 < 2 ^ 60) (ht2 : ts2 < 2 ^ 60)
    (hc1 : cs1 < 2 ^ 14) (hc2 : cs2 < 2 ^ 14)
    (h : uuid1Bytes ts1 cs1 n1 = uuid1Bytes ts2 cs2 n2) :
    ts1 = ts2 ∧ cs1 = cs2 := by
  simp only [uuid1Bytes, setVersion, setVariant, List.cons.injEq,
    and_true] at h
  norm_num at h ht1 ht2 hc1 hc2
  omega

/-- C7: two consecutive `uuid1()` calls never return the same UUID, even when
the clock reads an identical or regressed timestamp for the second call; the
clock-sequence bump keeps the results distinct. -/
theorem uuid1_consecutive_distinct (s : V1State) (ts1 ts2 : Nat)
    (h1 : ts1 < 2 ^ 60) (h2 : ts2 < 2 ^ 60) (hcs : s.cs < 2 ^ 14) :
    (uuid1Step s ts1).1 ≠ (uuid1Step (uuid1Step s ts1).2 ts2).1 := by
  simp only [uuid1Step]
  set c1 := if ts1 ≤ s.last then (s.cs + 1) % 2 ^ 14 else s.cs with hc1def
  have hc1 : c1 < 2 ^ 14 := by
    rw [hc1def]
    split
    · exact Nat.mod_lt _ (by norm_num)
    · exact hcs
  by_cases hle : ts2 ≤ ts1
  · rw [if_pos hle]
    intro heq
    obtain ⟨hts, hcseq⟩ := uuid1Bytes_inj ts1 ts2 c1 ((c1 + 1) % 2 ^ 14)
      s.node s.node h1 h2 hc1 (Nat.mod_lt _ (by norm_num)) heq
    have h14 : (2 : Nat) ^ 14 = 16384 := by norm_num
    rw [h14] at hcseq hc1
    omega
  · rw [if_neg hle]
    intro heq
    obtain ⟨hts, -⟩ := uuid1Bytes_inj ts1 ts2 c1 c1 s.node s.node
      h1 h2 hc1 hc1 heq
    omega

/-- Witness for C7: a repeated clock reading at tick 5 from a fresh state. -/
theorem uuid1_consecutive_distinct_witness :
    (5 : Nat) < 2 ^ 60 ∧ (V1State.mk 0 0 0).cs < 2 ^ 14 ∧
    (uuid1Step (V1State.mk 0 0 0) 5).1 ≠
      (uuid1Step (uuid1Step (V1State.mk 0 0 0) 5).2 5).1 :=
  ⟨by norm_num, by norm_num,
    uuid1_consecutive_distinct (V1State.mk 0 0 0) 5 5
      (by norm_num) (by norm_num) (by norm_num)⟩

/-- A successful parse certifies the canonical shape of the input string. -/
theorem parse_wellFormed (s : String) (bs : List Nat)
    (h : parseUUID s = some bs) : wellFormedUUIDString s := by
  unfold parseUUID at h
  cases hsp : splitDash s.data with
  | nil => rw [hsp] at h; simp at h
  | cons g1 t1 =>
    rw [hsp] at h
    rcases t1 with _ | ⟨g2, _ | ⟨g3, _ | ⟨g4, _ | ⟨g5, _ | ⟨g6, t6⟩⟩⟩⟩⟩
    · simp at h
    · simp at h
    · simp at h
    · simp at h
    · simp only [] at h
      split at h
      · rename_i hcond
        obtain ⟨hl1, hl2, hl3, hl4, hl5⟩ := hcond
        refine ⟨g1, g2, g3, g4, g5, ?_, hl1, hl2, hl3, hl4, hl5, ?_⟩
        · have hun := unsplitDash_splitDash s.data
          rw [hsp] at hun
          simp only [unsplitDash, List.cons_append] at hun
          exact hun.symm
        · exact parseHexPairs_chars _ _ h
      · simp at h
    · simp at h

/-- C8: a malformed canonical string — wrong length, a non-hex character, or
wrong hyphen grouping, i.e. no 8-4-4-4-12 hex decomposition — is rejected by
the parser with no UUID produced. -/
theorem parse_rejects_malformed (s : String)
    (h : ¬ wellFormedUUIDString s) : parseUUID s = none := by
  cases hp : parseUUID s with
  | none => rfl
  | some bs => exact absurd (parse_wellFormed s bs hp) h

/-- Witness for C8: the empty string is malformed and parses to `none`. -/
theorem parse_rejects_malformed_witness :
    ¬ wellFormedUUIDString (String.mk []) ∧
    parseUUID (String.mk []) = none := by
  have hnw : ¬ wellFormedUUIDString (String.mk []) := by
    rintro ⟨g1, g2, g3, g4, g5, hd, hl1, hl2, hl3, hl4, hl5, -⟩
    have hlen := congrArg List.length hd
    simp only [List.length_append, List.length_cons, hl1, hl2, hl3, hl4,
      hl5] at hlen
    simp at hlen
  exact ⟨hnw, parse_rejects_malformed _ hnw⟩

/-- C9: the canonical rendering of any UUID is exactly 36 characters — 32
lowercase hexadecimal digits in groups of 8, 4, 4, 4, 12 joined by hyphens;
no uppercase digit or other grouping occurs. -/
theorem format_canonical (bs : List Nat) (h16 : bs.length = 16)
    (hb : ∀ b ∈ bs, b < 256) :
    (formatUUID bs).data.length = 36 ∧
    ∃ g1 g2 g3 g4 g5 : List Char,
      (formatUUID bs).data =
        g1 ++ '-' :: (g2 ++ '-' :: (g3 ++ '-' :: (g4 ++ '-' :: g5))) ∧
      g1.length = 8 ∧ g2.length = 4 ∧ g3.length = 4 ∧ g4.length = 4 ∧
      g5.length = 12 ∧
      ∀ c ∈ g1 ++ (g2 ++ (g3 ++ (g4 ++ g5))), lowerHexChar c = true := by
  obtain ⟨b0, b1, b2, b3, b4, b5, b6, b7, b8, b9, b10, b11, b12, b13, b14,
    b15, rfl⟩ := exists_list16 bs h16
  refine ⟨rfl, hexStr [b0, b1, b2, b3], hexStr [b4, b5], hexStr [b6, b7],
    hexStr [b8, b9], hexStr [b10, b11, b12, b13, b14, b15],
    rfl, rfl, rfl, rfl, rfl, rfl, ?_⟩
  intro c hc
  rw [← hexStr_append, ← hexStr_append, ← hexStr_append, ← hexStr_append]
    at hc
  exact lowerHex_mem_hexStr _ hb c hc

/-- Witness for C9 at the concrete UUID `NAMESPACE_DNS`. -/
theorem format_canonical_witness :
    NAMESPACE_DNS.length = 16 ∧ (∀ b ∈ NAMESPACE_DNS, b < 256) ∧
    (formatUUID NAMESPACE_DNS).data.length = 36 :=
  ⟨by decide, by decide,
    (format_canonical NAMESPACE_DNS (by decide) (by decide)).1⟩

/-- C10: `benchmark_function(func, name, iterations, warmup)` invokes `func`
exactly `warmup + 5 * iterations` times — a warmup loop of `warmup` calls
followed by 5 timed trials of `iterations` calls each — and returns the pair
(mean of the 5 trial durations, iterations divided by that mean).  The trial
durations are assumed positive, as wall-clock measurements are, so the final
division is well defined. -/
theorem benchmark_function_spec {σ : Type} (func : σ → σ)
    (iterations warmup : Nat) (tt : Nat → ℚ) (s0 : σ)
    (_hpos : ∀ t, 0 < tt t) :
    (benchmark_function func iterations warmup tt s0).2 =
      applyN func (warmup + 5 * iterations) s0 ∧
    (benchmark_function func iterations warmup tt s0).1 =
      ((tt 0 + tt 1 + tt 2 + tt 3 + tt 4) / 5,
        (iterations : ℚ) / ((tt 0 + tt 1 + tt 2 + tt 3 + tt 4) / 5)) := by
  have hrange : List.range 5 = [0, 1, 2, 3, 4] := rfl
  constructor
  · simp only [benchmark_function, hrange, List.foldl_cons, List.foldl_nil]
    rw [show warmup + 5 * iterations =
      ((((warmup + iterations) + iterations) + iterations) + iterations) +
        iterations from by ring]
    rw [applyN_add, applyN_add, applyN_add, applyN_add, applyN_add]
  · simp only [benchmark_function, hrange, List.foldl_cons, List.foldl_nil,
      List.nil_append, List.cons_append, List.sum_cons, List.sum_nil,
      List.length_cons, List.length_nil]
    norm_num
    constructor <;> ring_nf

/-- Witness for C10: counting calls with `Nat.succ` from 0, 2 iterations and
3 warmup calls, all trial durations equal to 1. -/
theorem benchmark_function_spec_witness :
    (∀ t : Nat, 0 < (fun _ : Nat => (1 : ℚ)) t) ∧
    ((benchmark_function Nat.succ 2 3 (fun _ : Nat => (1 : ℚ)) 0).2 =
      applyN Nat.succ (3 + 5 * 2) 0 ∧
    (benchmark_function Nat.succ 2 3 (fun _ : Nat => (1 : ℚ)) 0).1 =
      (((1 : ℚ) + 1 + 1 + 1 + 1) / 5,
        (2 : ℚ) / (((1 : ℚ) + 1 + 1 + 1 + 1) / 5))) :=
  ⟨fun t => by norm_num,
    benchmark_function_spec Nat.succ 2 3 (fun _ => 1) 0 (fun t => by norm_num)⟩

end RustUuid

